import Mathlib

/-!
# Verification of the LMS Technical Support RAG backend (`flask_backend.py`)

Shallow embedding of the repository's single source file.  The Chroma
collection is modelled as a list of entries (id, document, metadata); the
queue directory as a list of artifacts in *directory-listing order* — the
order `pathlib.Path.glob` yields entries, which is `os.scandir` order and
is NOT guaranteed to be sorted (CPython's `_WildcardSelector._select_from`
iterates `scandir` results without sorting).  `sorted(...)` as applied by
the `/queue-status` handler is modelled by a stable insertion sort over
the code-point lexicographic order, matching Python's stable `sorted` on
strings/paths.  Fallible external calls (docx parsing, Chroma writes, the
vision and completion models) are modelled by explicit oracles so that the
error paths of the code can be stated.  All strings are ASCII in the
scenarios of interest, so `lower`/`strip` are modelled on ASCII.
-/

/-- Python code-point lexicographic `<` on strings, as lists of chars. -/
def lexLt : List Char → List Char → Bool
  | [], [] => false
  | [], _ :: _ => true
  | _ :: _, [] => false
  | a :: as, b :: bs =>
    if a.toNat < b.toNat then true
    else if a = b then lexLt as bs
    else false

/-- `a ≤ b` for a total strict order `lexLt`: `¬ b < a`. -/
def lexLe (a b : List Char) : Bool := ! lexLt b a

/-- Stable insert used by `pySorted`: `x` goes after every element `≤ x`. -/
def pyInsert {α : Type} (le : α → α → Bool) (x : α) : List α → List α
  | [] => [x]
  | h :: t => if le h x then h :: pyInsert le x t else x :: h :: t

/-- Python's stable `sorted(...)` (a stable sort by the given `le`). -/
def pySorted {α : Type} (le : α → α → Bool) (l : List α) : List α :=
  l.foldl (fun acc x => pyInsert le x acc) []

/-- Python's `needle in hay` on strings (substring containment). -/
def strContainsSub (hay needle : List Char) : Bool :=
  match hay with
  | [] => needle == []
  | _ :: t => needle.isPrefixOf hay || strContainsSub t needle

/-- Python's `str.strip()` (ASCII whitespace). -/
def pyStrip (l : List Char) : List Char :=
  ((l.dropWhile Char.isWhitespace).reverse.dropWhile Char.isWhitespace).reverse

/-- Python's `s.rsplit(c, 1)`: split at the last occurrence of char `c`. -/
def pyRsplitOnce (c : Char) (l : List Char) : List (List Char) :=
  if l.contains c then
    let rev := l.reverse
    [((rev.dropWhile (fun x => x ≠ c)).drop 1).reverse,
     (rev.takeWhile (fun x => x ≠ c)).reverse]
  else [l]

/-- Python's `str.lower()` (ASCII). -/
def pyLower (l : List Char) : List Char := l.map Char.toLower

/-- Last index at which `sep` occurs in `l`, if any (for `rsplit(sep, 1)`). -/
def lastOcc (sep l : List Char) : Option Nat :=
  (((List.range (l.length + 1)).filter (fun i => sep.isPrefixOf (l.drop i))).getLast?)

/-- Python's `s.rsplit(sep, 1)[0]` for a multi-char separator, assuming
`sep in s` (as the code guards with `if '_img_' in stem`). -/
def rsplitBefore (sep l : List Char) : List Char :=
  match lastOcc sep l with
  | some i => l.take i
  | none => l

/-- Python's `range(a, b, step)` for a non-negative step, fuel-based so it
is structurally recursive (`b - a` iterations always suffice when
`0 < step`). -/
def pyRangeAux (fuel a b step : Nat) : List Nat :=
  match fuel with
  | 0 => []
  | fuel + 1 => if a < b ∧ 0 < step then a :: pyRangeAux fuel (a + step) b step else []

/-- Python's `range(a, b, step)`. -/
def pyRange (a b step : Nat) : List Nat := pyRangeAux (b - a) a b step

/-- Metadata dict of a collection entry.  Text entries are written with
`{"source": .., "type": "text"}` (no `processed` key); the code only reads
`processed` through `meta.get("processed")`, whose `None` default is falsy,
so a missing key is modelled as `processed = false`. -/
structure RagMeta where
  source : String
  type : String
  processed : Bool
deriving Repr, DecidableEq

/-- One entry of the Chroma collection: id, document text, metadata. -/
structure RagEntry where
  id : String
  doc : String
  meta : RagMeta
deriving Repr, DecidableEq

/-- One queue artifact: the file `<id>.png` in `image_queue/`, holding the
raw image bytes.  `id` is the file's stem. -/
structure Artifact where
  id : String
  bytes : List Nat
deriving Repr, DecidableEq

/-- The shared mutable state: the Chroma collection (`index`) and the queue
directory (`queue`), the latter in directory-listing order. -/
structure RagState where
  index : List RagEntry
  queue : List Artifact
deriving Repr, DecidableEq

/-- One docx relationship (`doc.part.rels.values()` order). -/
structure DocxRel where
  targetRef : String
  blob : List Nat
deriving Repr, DecidableEq

/-- A parsed docx: ordered paragraph texts and ordered relationships. -/
structure Docx where
  paragraphs : List String
  rels : List DocxRel
deriving Repr, DecidableEq

/-- `self.collection.get(ids=[i])` (ids are unique in Chroma): the entry
with the given id, if present. -/
def getEntry (idx : List RagEntry) (i : String) : Option RagEntry :=
  idx.find? (fun e => e.id == i)

/-- `self.collection.update(ids=[i], documents=[d], metadatas=[m])`:
replace document and metadata of the entry with id `i`, in place. -/
def updateEntry (idx : List RagEntry) (i : String) (d : String) (m : RagMeta) :
    List RagEntry :=
  idx.map (fun e => if e.id = i then ⟨e.id, d, m⟩ else e)

/-- `img_path.unlink(missing_ok=True)`: remove the artifact named `i`. -/
def removeArt (q : List Artifact) (i : String) : List Artifact :=
  q.filter (fun a => a.id ≠ i)

/-- `"\n".join(p.text for p in doc.paragraphs if p.text.strip())`. -/
def textOf (doc : Docx) : String :=
  String.intercalate "\n"
    (doc.paragraphs.filter (fun p => pyStrip p.toList ≠ []))

/-- `[text[i:i+2000] for i in range(0, len(text), 1800)]`, over char lists. -/
def chunkList (t : List Char) : List (List Char) :=
  (pyRange 0 t.length 1800).map (fun i => (t.drop i).take 2000)

/-- The text chunks of a document, as strings. -/
def textChunks (doc : Docx) : List String :=
  (chunkList (textOf doc).toList).map (fun l => ⟨l⟩)

/-- `f"{file_name}_t_{i}"`. -/
def textId (name : String) (i : Nat) : String := s!"{name}_t_{i}"

/-- The text entries added by the first `collection.add` of `process_docx`:
ids `f"{file_name}_t_{i}"`, documents the chunks, metadata
`{"source": file_name, "type": "text"}`. -/
def textEntries (name : String) (doc : Docx) : List RagEntry :=
  (textChunks doc).enum.map (fun p => ⟨textId name p.1, p.2, ⟨name, "text", false⟩⟩)

/-- `f"{file_name}_img_{img_index}"`. -/
def imgId (name : String) (i : Nat) : String := s!"{name}_img_{i}"

/-- The image entry added for the `i`-th embedded image: placeholder
document and metadata `{"source": name, "processed": False, "type": "image"}`. -/
def imageEntry (name : String) (i : Nat) : RagEntry :=
  ⟨imgId name i, "[Image queued for analysis]", ⟨name, "image", false⟩⟩

/-- The blobs of the image relationships, in `rels.values()` order
(`if "image" in rel.target_ref`). -/
def imageBlobs (doc : Docx) : List (List Nat) :=
  (doc.rels.filter (fun r => strContainsSub r.targetRef.toList "image".toList)).map
    (fun r => r.blob)

/-- All image entries a full ingestion of `doc` creates. -/
def imageEntries (name : String) (doc : Docx) : List RagEntry :=
  (imageBlobs doc).enum.map (fun p => imageEntry name p.1)

/-- The image loop of `process_docx`.  For each image: write the artifact
file, then `collection.add` the image entry.  `addFails n` injects an
exception into the n-th `collection.add` call of this `process_docx` run
(call `0` is the text add, call `i+1` the add of image `i`); the raised
exception propagates out of `process_docx`, leaving the writes made so far
in place (`false` result = exception). -/
def processImages (name : String) (addFails : Nat → Bool) :
    List (Nat × List Nat) → RagState → RagState × Bool
  | [], st => (st, true)
  | (i, b) :: rest, st =>
    let stq : RagState := { st with queue := st.queue ++ [⟨imgId name i, b⟩] }
    if addFails (i + 1) then (stq, false)
    else processImages name addFails rest
      { stq with index := stq.index ++ [imageEntry name i] }

/-- `LearningCurveRAG.process_docx`.  `parseOk = false` models
`DocxDocument(path)` raising before anything else runs; `addFails` injects
failures into `collection.add` calls.  Result flag `false` means the call
raised (the caller `upload_file` turns this into a 500). Steps, as in the
source: parse; dedup check on `collection.get(where={"source": file_name})`;
text add; per-image artifact write + add. -/
def processDocx (parseOk : Bool) (doc : Docx) (addFails : Nat → Bool)
    (fileName : String) (st : RagState) : RagState × Bool :=
  if !parseOk then (st, false)
  else if ((st.index.filter (fun e => e.meta.source == fileName)).map
      (fun e => e.id)) ≠ [] then (st, true)
  else if addFails 0 then (st, false)
  else
    processImages fileName addFails (imageBlobs doc).enum
      { st with index := st.index ++ textEntries fileName doc }

/-- The body of `_vision_worker`'s per-artifact `try` block.  `vision b`
is `describe_image(prepare_image_for_vision(b))`: `none` models either a
decode error or an upstream vision-model error (both raise, are printed,
and the loop continues).  The second component accumulates the ids whose
artifacts reached the decode/vision call (the attempt log). -/
def workerStep (vision : List Nat → Option String)
    (sc : RagState × List String) (a : Artifact) : RagState × List String :=
  let st := sc.1
  let calls := sc.2
  match getEntry st.index a.id with
  | none => (st, calls)
  | some e =>
    if e.meta.processed then
      ({ st with queue := removeArt st.queue a.id }, calls)
    else
      match vision a.bytes with
      | none => (st, calls ++ [a.id])
      | some d =>
        ({ index := updateEntry st.index a.id d ⟨e.meta.source, "image", true⟩,
           queue := removeArt st.queue a.id }, calls ++ [a.id])

/-- One sweep of `_vision_worker`: snapshot the listing
(`images = list(self.queue_dir.glob("*.png"))`, i.e. `st.queue` in
directory-listing order) and fold the per-artifact body over it.  Returns
the new state and the attempt log. -/
def workerSweep (vision : List Nat → Option String) (st : RagState) :
    RagState × List String :=
  st.queue.foldl (workerStep vision) (st, [])

/-- The artifact file name `f"{img_id}.png"`. -/
def artFileName (a : Artifact) : String := a.id ++ ".png"

/-- `img_path.stem.rsplit('_img_', 1)[0] if '_img_' in img_path.stem else
'Unknown'`. -/
def sourceDocOf (stem : String) : String :=
  if strContainsSub stem.toList "_img_".toList then
    ⟨rsplitBefore "_img_".toList stem.toList⟩
  else "Unknown"

/-- The shared scan of both the worker and the status endpoint: the first
artifact of `listing` whose index entry exists and is not yet processed. -/
def firstUnprocessed (idx : List RagEntry) (listing : List Artifact) :
    Option Artifact :=
  listing.find? (fun a =>
    match getEntry idx a.id with
    | none => false
    | some e => ! e.meta.processed)

/-- `current_image` as computed by the `/queue-status` endpoint: the queue
listing is first passed through `sorted(...)` (by file name), then scanned
for the first artifact with an existing, unprocessed entry; reported as
`(filename, source_doc)`. -/
def statusCurrentImage (st : RagState) : Option (String × String) :=
  (firstUnprocessed st.index
      (pySorted (fun a b => lexLe (artFileName a).toList (artFileName b).toList)
        st.queue)).map
    (fun a => (artFileName a, sourceDocOf a.id))

/-- The first artifact the worker's sweep would actually submit: the same
scan, but over the *unsorted* `glob` listing the worker iterates. -/
def workerCurrentImage (st : RagState) : Option (String × String) :=
  (firstUnprocessed st.index st.queue).map
    (fun a => (artFileName a, sourceDocOf a.id))

/-- `allowed_file`: `'.' in filename and
filename.rsplit('.', 1)[1].lower() in {'docx'}`. -/
def allowed_file (filename : String) : Bool :=
  filename.toList.contains '.' &&
    pyLower (((pyRsplitOnce '.' filename.toList).getD 1 [])) == "docx".toList

/-- HTTP outcome of the `/upload` endpoint. -/
inductive UploadResp where
  | e400 (msg : String)
  | ok200 (msg : String)
  | e500 (msg : String)
deriving Repr, DecidableEq

/-- Whether a response is a 400 rejection. -/
def UploadResp.is400 : UploadResp → Bool
  | .e400 _ => true
  | _ => false

/-- The `/upload` handler.  `present` is `'file' in request.files`;
`filename` the uploaded filename (truthiness of `file` for a present part
is its filename being non-empty, covered by the `filename == ''` check).
The saved copy in `uploaded_docs/` is outside the modelled state; the
index/queue state is only touched through `process_docx`. -/
def upload_file (present : Bool) (filename : String) (parseOk : Bool)
    (doc : Docx) (addFails : Nat → Bool) (st : RagState) :
    UploadResp × RagState :=
  if !present then (.e400 "No file part", st)
  else if filename == "" then (.e400 "No selected file", st)
  else if allowed_file filename then
    let r := processDocx parseOk doc addFails filename st
    if r.2 then (.ok200 s!"File {filename} uploaded and processed successfully!", r.1)
    else (.e500 "Error processing file", r.1)
  else (.e400 "Invalid file type. Only .docx files are allowed.", st)

/-- One server-sent event of the `/ask` response body, or the exception
that aborts the stream while the WSGI server iterates the generator. -/
inductive SseEvent where
  | data (s : String)
  | abort (e : String)
deriving Repr, DecidableEq

/-- HTTP outcome of the `/ask` endpoint.  `serverError` is the
`except Exception` branch returning a 500 JSON body. -/
inductive AskResp where
  | badRequest (msg : String)
  | eventStream (frames : List SseEvent)
  | serverError (msg : String)
deriving Repr, DecidableEq

/-- The fixed streaming prompt of the `/ask` generator. -/
def streamPrompt (context question : String) : String :=
  "You are a specialized LMS Technical Support Assistant. " ++
  "Your goal is to provide a walkthrough that is impossible to misunderstand.\n\n" ++
  "CRITICAL FORMATTING RULES:\n" ++
  "- Use '## 1)' '## 2)' '## 3)' etc. for main steps\n" ++
  "- Use '1.' '2.' '3.' etc. for sub-steps under each main step\n" ++
  "- IMPORTANT: Put each sub-step on a NEW LINE (press Enter after each sub-step)\n" ++
  "- Example format:\n" ++
  "  ## 1) Main step title\n" ++
  "  1. First sub-step here.\n" ++
  "  2. Second sub-step here.\n" ++
  "  3. Third sub-step here.\n" ++
  "  ## 2) Next main step\n\n" ++
  "CONTENT RULES:\n" ++
  "- For every action, describe the visual icon (e.g., 'the megaphone icon') and its screen location\n" ++
  "- Use **bold** for important UI elements, colors, and locations\n" ++
  "- Be conversational but extremely precise\n" ++
  "- Answer ONLY using the provided context\n" ++
  "- Use both text documentation AND image descriptions\n\n" ++
  s!"CONTEXT:\n{context}\n\n" ++
  s!"USER QUESTION: {question}"

/-- The body of the `generate()` generator of `/ask`.  `queryRes` is the
outcome of `collection.query(...)` (its top-6 documents, or the exception
it raises); `completion prompt` is the outcome of the streaming
`chat.completions.create` call: the token deltas delivered before the
stream either ends (`none`) or raises (`some e`).  Deltas with falsy
content are skipped by `if chunk.choices and chunk.choices[0].delta.content`.
Any exception raised here happens during response iteration — after
`ask_question` has already returned — so it aborts the stream. -/
def generateFrames (question : String)
    (queryRes : Except String (List String))
    (completion : String → List String × Option String) : List SseEvent :=
  match queryRes with
  | .error e => [.abort e]
  | .ok docs =>
    let context := String.intercalate "\n\n" docs
    let prompt := streamPrompt context question
    let r := completion prompt
    (r.1.filter (fun t => t ≠ "")).map (fun t => SseEvent.data s!"data: {t}\n\n") ++
      (match r.2 with
       | some e => [SseEvent.abort e]
       | none => [SseEvent.data "data: [DONE]\n\n"])

/-- The `/ask` handler.  After the empty-question check it enters
`try: def generate(): ...; return app.response_class(generate(), ...)`.
Defining and calling the generator function executes none of its body, so
the `try` block only ever constructs the response object: the 200
event-stream response is returned unconditionally and the generator body
— including the similarity query and the completion call — runs only while
the returned response is being streamed, outside the `try`. -/
def ask_question (question : String)
    (queryRes : Except String (List String))
    (completion : String → List String × Option String) : AskResp :=
  if question == "" then .badRequest "No question provided"
  else .eventStream (generateFrames question queryRes completion)

/-! ## Helper lemmas about the index and the worker -/

theorem getEntry_id {idx : List RagEntry} {i : String} {e : RagEntry}
    (h : getEntry idx i = some e) : e.id = i := by
  have := List.find?_some h
  simpa using this

theorem getEntry_updateEntry (idx : List RagEntry) (i : String) (d : String)
    (m : RagMeta) (j : String) :
    getEntry (updateEntry idx i d m) j =
      if j = i then (getEntry idx j).map (fun e => ⟨e.id, d, m⟩)
      else getEntry idx j := by
  induction idx with
  | nil => simp [getEntry, updateEntry]
  | cons e es ih =>
    by_cases hei : e.id = i
    · by_cases hji : j = i
      · simp [getEntry, updateEntry, List.find?, hei, hji]
      · have hej : (e.id == j) = false := by
          simp [hei]; intro hc; exact hji hc.symm
        simp only [updateEntry, List.map_cons, if_pos hei, getEntry, List.find?] at *
        simp only [hej, show ((⟨e.id, d, m⟩ : RagEntry).id == j) = false from hej]
        simpa [getEntry, updateEntry, hji] using ih
    · by_cases hej : e.id = j
      · have hji : j ≠ i := fun hc => hei (hej.trans hc)
        simp [getEntry, updateEntry, List.find?, hei, hej, hji]
      · simp only [updateEntry, List.map_cons, if_neg hei, getEntry, List.find?,
          show (e.id == j) = false by simpa using hej]
        simpa [getEntry, updateEntry] using ih

theorem workerStep_absent {v : List Nat → Option String} {st : RagState}
    {calls : List String} {a : Artifact}
    (h : getEntry st.index a.id = none) :
    workerStep v (st, calls) a = (st, calls) := by
  simp [workerStep, h]

theorem workerStep_processed {v : List Nat → Option String} {st : RagState}
    {calls : List String} {a : Artifact} {e : RagEntry}
    (h : getEntry st.index a.id = some e) (hp : e.meta.processed = true) :
    workerStep v (st, calls) a = ({ st with queue := removeArt st.queue a.id }, calls) := by
  simp [workerStep, h, hp]

theorem workerStep_fail {v : List Nat → Option String} {st : RagState}
    {calls : List String} {a : Artifact} {e : RagEntry}
    (h : getEntry st.index a.id = some e) (hp : e.meta.processed = false)
    (hv : v a.bytes = none) :
    workerStep v (st, calls) a = (st, calls ++ [a.id]) := by
  simp [workerStep, h, hp, hv]

theorem workerStep_success {v : List Nat → Option String} {st : RagState}
    {calls : List String} {a : Artifact} {e : RagEntry} {d : String}
    (h : getEntry st.index a.id = some e) (hp : e.meta.processed = false)
    (hv : v a.bytes = some d) :
    workerStep v (st, calls) a =
      ({ index := updateEntry st.index a.id d ⟨e.meta.source, "image", true⟩,
         queue := removeArt st.queue a.id }, calls ++ [a.id]) := by
  simp [workerStep, h, hp, hv]

theorem removeArt_mem {q : List Artifact} {a : Artifact} {j : String}
    (hne : a.id ≠ j) (hm : a ∈ q) : a ∈ removeArt q j := by
  simp [removeArt, List.mem_filter, hm, hne]

/-- Any step leaves the attempt log a prefix extension: membership is
monotone along a fold. -/
theorem foldl_calls_mono (v : List Nat → Option String) :
    ∀ (l : List Artifact) (sc : RagState × List String) (j : String),
      j ∈ sc.2 → j ∈ (l.foldl (workerStep v) sc).2 := by
  intro l
  induction l with
  | nil => intro sc j h; simpa using h
  | cons a rest ih =>
    intro sc j h
    rw [List.foldl_cons]
    apply ih
    obtain ⟨st, calls⟩ := sc
    cases hg : getEntry st.index a.id with
    | none => simpa [workerStep_absent hg] using h
    | some e =>
      by_cases hp : e.meta.processed
      · simpa [workerStep_processed hg hp] using h
      · cases hv : v a.bytes with
        | none =>
          rw [workerStep_fail hg (by simpa using hp) hv]
          simpa using Or.inl h
        | some d =>
          rw [workerStep_success hg (by simpa using hp) hv]
          simpa using Or.inl h

/-- A fold of worker steps over artifacts none of which is named `j`
leaves the entry with id `j` untouched. -/
theorem foldl_entry_untouched (v : List Nat → Option String) :
    ∀ (l : List Artifact) (sc : RagState × List String) (j : String),
      (∀ a ∈ l, a.id ≠ j) →
      getEntry (l.foldl (workerStep v) sc).1.index j = getEntry sc.1.index j := by
  intro l
  induction l with
  | nil => intro sc j _; rfl
  | cons a rest ih =>
    intro sc j hl
    have ha : a.id ≠ j := hl a (by simp)
    have hrest : ∀ b ∈ rest, b.id ≠ j := fun b hb => hl b (by simp [hb])
    rw [List.foldl_cons]
    rw [ih _ j hrest]
    obtain ⟨st, calls⟩ := sc
    cases hg : getEntry st.index a.id with
    | none => rw [workerStep_absent hg]
    | some e =>
      by_cases hp : e.meta.processed
      · rw [workerStep_processed hg hp]
      · cases hv : v a.bytes with
        | none => rw [workerStep_fail hg (by simpa using hp) hv]
        | some d =>
          rw [workerStep_success hg (by simpa using hp) hv]
          show getEntry (updateEntry st.index a.id d _) j = getEntry st.index j
          rw [getEntry_updateEntry, if_neg (fun hc => ha hc.symm)]

/-- A processed entry is untouched by a whole fold of worker steps, and
its id is never attempted. -/
theorem foldl_keep_processed (v : List Nat → Option String) :
    ∀ (l : List Artifact) (st : RagState) (calls : List String)
      (i : String) (e : RagEntry),
      getEntry st.index i = some e → e.meta.processed = true →
      getEntry (l.foldl (workerStep v) (st, calls)).1.index i = some e ∧
        (i ∉ calls → i ∉ (l.foldl (workerStep v) (st, calls)).2) := by
  intro l
  induction l with
  | nil => intro st calls i e h hp; exact ⟨h, fun hn => hn⟩
  | cons a rest ih =>
    intro st calls i e h hp
    rw [List.foldl_cons]
    by_cases hid : a.id = i
    · have hga : getEntry st.index a.id = some e := by rw [hid]; exact h
      rw [workerStep_processed hga hp]
      exact ih _ calls i e h hp
    · cases hg : getEntry st.index a.id with
      | none => rw [workerStep_absent hg]; exact ih _ calls i e h hp
      | some ea =>
        by_cases hep : ea.meta.processed
        · rw [workerStep_processed hg hep]; exact ih _ calls i e h hp
        · cases hv : v a.bytes with
          | none =>
            rw [workerStep_fail hg (by simpa using hep) hv]
            have hres := ih _ (calls ++ [a.id]) i e h hp
            refine ⟨hres.1, fun hni => hres.2 ?_⟩
            simp only [List.mem_append, List.mem_singleton]
            push_neg
            exact ⟨hni, fun hc => hid hc.symm⟩
          | some d =>
            rw [workerStep_success hg (by simpa using hep) hv]
            have hidx : getEntry (updateEntry st.index a.id d
                ⟨ea.meta.source, "image", true⟩) i = some e := by
              rw [getEntry_updateEntry, if_neg (fun hc => hid hc.symm)]
              exact h
            have hres := ih ⟨updateEntry st.index a.id d
                ⟨ea.meta.source, "image", true⟩, removeArt st.queue a.id⟩
                (calls ++ [a.id]) i e hidx hp
            refine ⟨hres.1, fun hni => hres.2 ?_⟩
            simp only [List.mem_append, List.mem_singleton]
            push_neg
            exact ⟨hni, fun hc => hid hc.symm⟩

/-- An id with no index entry stays absent, its artifacts are never
deleted, and it is never attempted, across a whole fold of worker steps. -/
theorem foldl_keep_missing (v : List Nat → Option String) :
    ∀ (l : List Artifact) (st : RagState) (calls : List String) (i : String),
      getEntry st.index i = none →
      getEntry (l.foldl (workerStep v) (st, calls)).1.index i = none ∧
        (∀ a₀ : Artifact, a₀.id = i → a₀ ∈ st.queue →
          a₀ ∈ (l.foldl (workerStep v) (st, calls)).1.queue) ∧
        (i ∉ calls → i ∉ (l.foldl (workerStep v) (st, calls)).2) := by
  intro l
  induction l with
  | nil => intro st calls i h; exact ⟨h, fun _ _ hm => hm, fun hn => hn⟩
  | cons a rest ih =>
    intro st calls i h
    rw [List.foldl_cons]
    by_cases hid : a.id = i
    · have hga : getEntry st.index a.id = none := by rw [hid]; exact h
      rw [workerStep_absent hga]
      exact ih _ calls i h
    · cases hg : getEntry st.index a.id with
      | none => rw [workerStep_absent hg]; exact ih _ calls i h
      | some ea =>
        by_cases hep : ea.meta.processed
        · rw [workerStep_processed hg hep]
          have hres := ih ⟨st.index, removeArt st.queue a.id⟩ calls i h
          exact ⟨hres.1,
            fun a₀ h₀ hm => hres.2.1 a₀ h₀ (removeArt_mem (h₀ ▸ fun hc => hid hc.symm) hm),
            hres.2.2⟩
        · cases hv : v a.bytes with
          | none =>
            rw [workerStep_fail hg (by simpa using hep) hv]
            have hres := ih _ (calls ++ [a.id]) i h
            refine ⟨hres.1, hres.2.1, fun hni => hres.2.2 ?_⟩
            simp only [List.mem_append, List.mem_singleton]
            push_neg
            exact ⟨hni, fun hc => hid hc.symm⟩
          | some d =>
            rw [workerStep_success hg (by simpa using hep) hv]
            have hidx : getEntry (updateEntry st.index a.id d
                ⟨ea.meta.source, "image", true⟩) i = none := by
              rw [getEntry_updateEntry, if_neg (fun hc => hid hc.symm)]
              exact h
            have hres := ih ⟨updateEntry st.index a.id d
                ⟨ea.meta.source, "image", true⟩, removeArt st.queue a.id⟩
                (calls ++ [a.id]) i hidx
            refine ⟨hres.1,
              fun a₀ h₀ hm => hres.2.1 a₀ h₀ (removeArt_mem (h₀ ▸ fun hc => hid hc.symm) hm),
              fun hni => hres.2.2 ?_⟩
            simp only [List.mem_append, List.mem_singleton]
            push_neg
            exact ⟨hni, fun hc => hid hc.symm⟩

/-- An unprocessed entry on which the vision call fails (for every queue
artifact carrying its id) is left unchanged by a whole fold of worker
steps, and its artifacts are never deleted. -/
theorem foldl_keep_failing (v : List Nat → Option String) :
    ∀ (l : List Artifact) (st : RagState) (calls : List String)
      (i : String) (e : RagEntry),
      getEntry st.index i = some e → e.meta.processed = false →
      (∀ a ∈ l, a.id = i → v a.bytes = none) →
      getEntry (l.foldl (workerStep v) (st, calls)).1.index i = some e ∧
        (∀ a₀ : Artifact, a₀.id = i → a₀ ∈ st.queue →
          a₀ ∈ (l.foldl (workerStep v) (st, calls)).1.queue) := by
  intro l
  induction l with
  | nil => intro st calls i e h hp _; exact ⟨h, fun _ _ hm => hm⟩
  | cons a rest ih =>
    intro st calls i e h hp hvl
    have hvrest : ∀ b ∈ rest, b.id = i → v b.bytes = none :=
      fun b hb => hvl b (by simp [hb])
    rw [List.foldl_cons]
    by_cases hid : a.id = i
    · have hga : getEntry st.index a.id = some e := by rw [hid]; exact h
      rw [workerStep_fail hga hp (hvl a (by simp) hid)]
      exact ih _ (calls ++ [a.id]) i e h hp hvrest
    · cases hg : getEntry st.index a.id with
      | none => rw [workerStep_absent hg]; exact ih _ calls i e h hp hvrest
      | some ea =>
        by_cases hep : ea.meta.processed
        · rw [workerStep_processed hg hep]
          have hres := ih ⟨st.index, removeArt st.queue a.id⟩ calls i e h hp hvrest
          exact ⟨hres.1,
            fun a₀ h₀ hm => hres.2 a₀ h₀ (removeArt_mem (h₀ ▸ fun hc => hid hc.symm) hm)⟩
        · cases hv : v a.bytes with
          | none =>
            rw [workerStep_fail hg (by simpa using hep) hv]
            exact ih _ (calls ++ [a.id]) i e h hp hvrest
          | some d =>
            rw [workerStep_success hg (by simpa using hep) hv]
            have hidx : getEntry (updateEntry st.index a.id d
                ⟨ea.meta.source, "image", true⟩) i = some e := by
              rw [getEntry_updateEntry, if_neg (fun hc => hid hc.symm)]
              exact h
            have hres := ih ⟨updateEntry st.index a.id d
                ⟨ea.meta.source, "image", true⟩, removeArt st.queue a.id⟩
                (calls ++ [a.id]) i e hidx hp hvrest
            exact ⟨hres.1,
              fun a₀ h₀ hm => hres.2 a₀ h₀ (removeArt_mem (h₀ ▸ fun hc => hid hc.symm) hm)⟩

/-! ## Concrete fixtures -/

/-- A one-paragraph ("hello"), one-image document. -/
def exampleDoc : Docx := ⟨["hello"], [⟨"media/image1.png", [1, 2, 3]⟩]⟩

/-- The empty initial state. -/
def emptyState : RagState := ⟨[], []⟩

/-- A state whose queue-directory listing (`scandir`/`glob` order) is not
lexicographic: `doc2.docx` was uploaded before `doc1.docx`, so its artifact
was created first.  Both image entries exist and are unprocessed. -/
def mixedState : RagState :=
  ⟨[⟨"doc2.docx_img_0", "[Image queued for analysis]", ⟨"doc2.docx", "image", false⟩⟩,
    ⟨"doc1.docx_img_0", "[Image queued for analysis]", ⟨"doc1.docx", "image", false⟩⟩],
   [⟨"doc2.docx_img_0", [0]⟩, ⟨"doc1.docx_img_0", [0]⟩]⟩

/-! ## Claim theorems -/

/-- **C1.** The `/queue-status` endpoint sorts the queue listing before
scanning it, but the worker iterates the raw `glob` (scandir-order)
listing: on a listing that is not already sorted, `current_image` names an
artifact different from the first unprocessed artifact the worker's sweep
visits.  Here the listing is `[doc2.docx_img_0.png, doc1.docx_img_0.png]`,
both entries unprocessed: the status endpoint reports `doc1.docx_img_0.png`
while the worker would process `doc2.docx_img_0.png` first. -/
theorem C1_ordering_divergence :
    statusCurrentImage mixedState = some ("doc1.docx_img_0.png", "doc1.docx") ∧
    workerCurrentImage mixedState = some ("doc2.docx_img_0.png", "doc2.docx") := by
  decide

/-- **C6 (counterexample).** An artifact (`ghost.png`) with no matching
index entry is *not* deleted by the sweep that visits it: the worker's
`if not meta_list: continue` skips it without unlinking, so it is still in
the queue directory after the sweep — contradicting the claim that after
the sweep no artifact without an index entry remains. -/
theorem C6_counterexample :
    getEntry ((⟨[], [⟨"ghost", [1]⟩]⟩ : RagState)).index "ghost" = none ∧
    (workerSweep (fun _ => some "desc") ⟨[], [⟨"ghost", [1]⟩]⟩).1.queue =
      [⟨"ghost", [1]⟩] := by
  decide

/-- **C6 (amended).** A queue artifact whose id has no matching image
entry in the index is skipped by every worker sweep: its artifact file is
left in place (not deleted), no entry for it appears, and it is never
submitted to the vision model. -/
theorem C6_orphan_skipped (v : List Nat → Option String) (st : RagState)
    (i : String) (h : getEntry st.index i = none) :
    getEntry (workerSweep v st).1.index i = none ∧
      (∀ a₀ : Artifact, a₀.id = i → a₀ ∈ st.queue → a₀ ∈ (workerSweep v st).1.queue) ∧
      i ∉ (workerSweep v st).2 := by
  have hres := foldl_keep_missing v st.queue st [] i h
  exact ⟨hres.1, hres.2.1, hres.2.2 (List.not_mem_nil i)⟩

/-- **C6 (amended), witness.** The ghost artifact of the counterexample
state survives the sweep untouched and unattempted. -/
theorem C6_orphan_skipped_witness :
    getEntry (workerSweep (fun _ => some "desc") ⟨[], [⟨"ghost", [1]⟩]⟩).1.index
        "ghost" = none ∧
      (⟨"ghost", [1]⟩ : Artifact) ∈
        (workerSweep (fun _ => some "desc") ⟨[], [⟨"ghost", [1]⟩]⟩).1.queue ∧
      "ghost" ∉ (workerSweep (fun _ => some "desc") ⟨[], [⟨"ghost", [1]⟩]⟩).2 := by
  have hres := C6_orphan_skipped (fun _ => some "desc") ⟨[], [⟨"ghost", [1]⟩]⟩
    "ghost" (by decide)
  exact ⟨hres.1, hres.2.1 ⟨"ghost", [1]⟩ rfl (by decide), hres.2.2⟩

/-- **C2.** Ingestion is idempotent per source name: if some index entry
already carries the file's name as its `source`, `process_docx` returns at
the dedup check without touching the index or the queue (when the re-parse
itself fails the state is equally untouched; the result flag records
whether the call returned normally). -/
theorem C2_ingestion_idempotent (st : RagState) (name : String)
    (parseOk : Bool) (doc : Docx) (addFails : Nat → Bool)
    (h : ∃ e ∈ st.index, e.meta.source = name) :
    processDocx parseOk doc addFails name st = (st, parseOk) := by
  obtain ⟨e, he, hs⟩ := h
  have hne : (st.index.filter (fun x => x.meta.source == name)).map
      (fun x => x.id) ≠ [] := by
    have hmem : e ∈ st.index.filter (fun x => x.meta.source == name) := by
      rw [List.mem_filter]
      exact ⟨he, by simp [hs]⟩
    intro hc
    rw [List.map_eq_nil_iff] at hc
    rw [hc] at hmem
    exact List.not_mem_nil e hmem
  cases parseOk with
  | false => rfl
  | true => simp [processDocx, hne]

/-- **C2, witness.** Re-ingesting `exampleDoc` into a state that already
holds its text entry is a no-op. -/
theorem C2_ingestion_idempotent_witness :
    processDocx true exampleDoc (fun _ => false) "m.docx"
        ⟨[⟨"m.docx_t_0", "hello", ⟨"m.docx", "text", false⟩⟩], []⟩ =
      (⟨[⟨"m.docx_t_0", "hello", ⟨"m.docx", "text", false⟩⟩], []⟩, true) := by
  exact C2_ingestion_idempotent _ "m.docx" true exampleDoc (fun _ => false)
    ⟨⟨"m.docx_t_0", "hello", ⟨"m.docx", "text", false⟩⟩, by decide, rfl⟩

/-- **C3 (counterexample).** Ingesting `exampleDoc` with the image-entry
`collection.add` raising (`addFails 1`) leaves the text entry for source
`m.docx` in the index and the artifact on disk, but no image entry; the
raised exception propagates (`false`).  Re-running `process_docx` on the
same file with everything succeeding is then a *no-op* — the dedup check
sees the partial text entry — so the re-upload does NOT re-run the
ingestion, contradicting the claim. -/
theorem C3_counterexample :
    (processDocx true exampleDoc (fun n => n == 1) "m.docx" emptyState).2 = false ∧
    getEntry (processDocx true exampleDoc (fun n => n == 1) "m.docx"
        emptyState).1.index "m.docx_img_0" = none ∧
    (processDocx true exampleDoc (fun n => n == 1) "m.docx" emptyState).1.index =
      [⟨"m.docx_t_0", "hello", ⟨"m.docx", "text", false⟩⟩] ∧
    processDocx true exampleDoc (fun _ => false) "m.docx"
        (processDocx true exampleDoc (fun n => n == 1) "m.docx" emptyState).1 =
      ((processDocx true exampleDoc (fun n => n == 1) "m.docx" emptyState).1, true) := by
  decide

/-- **C3 (amended).** A failure *before the first index write* — a parse
error, or an error in the very first `collection.add` — leaves the state
completely unchanged, so the source is not considered ingested and a
re-upload re-runs the ingestion from scratch.  (After the first successful
index write, partial entries make a re-upload a no-op, per the
counterexample.) -/
theorem C3_early_failure_not_ingested (doc : Docx) (addFails : Nat → Bool)
    (name : String) (st : RagState) :
    (processDocx false doc addFails name st = (st, false)) ∧
    (((st.index.filter (fun e => e.meta.source == name)).map (fun e => e.id)) = [] →
      addFails 0 = true →
      processDocx true doc addFails name st = (st, false)) := by
  constructor
  · rfl
  · intro h0 hf
    simp [processDocx, h0, hf]

/-- **C3 (amended), witness.** A first-add failure on a fresh state
changes nothing, and the subsequent clean run performs the ingestion. -/
theorem C3_early_failure_not_ingested_witness :
    (processDocx false exampleDoc (fun n => n == 0) "m.docx" emptyState =
      (emptyState, false)) ∧
    (processDocx true exampleDoc (fun n => n == 0) "m.docx" emptyState =
      (emptyState, false)) := by
  have hres := C3_early_failure_not_ingested exampleDoc (fun n => n == 0)
    "m.docx" emptyState
  exact ⟨hres.1, hres.2 (by decide) (by decide)⟩

/-- **C4.** The image-entry lifecycle: (1) every image entry is created
with `processed=false` and the placeholder description; (2) a successful
worker step updates it in place to `processed=true` with the vision
model's output as its description, preserving its `source`, and deletes
its artifact; (3) a worker step that finds the entry already processed
only deletes the leftover artifact, changing nothing else and submitting
nothing; (4) across a whole sweep, an entry that is processed at the start
is never attempted at the vision model and is never changed. -/
theorem C4_image_entry_lifecycle :
    (∀ (name : String) (doc : Docx), ∀ e ∈ imageEntries name doc,
      e.doc = "[Image queued for analysis]" ∧ e.meta.processed = false ∧
        e.meta.source = name ∧ e.meta.type = "image") ∧
    (∀ (v : List Nat → Option String) (st : RagState) (calls : List String)
      (a : Artifact) (e : RagEntry) (d : String),
      getEntry st.index a.id = some e → e.meta.processed = false →
      v a.bytes = some d →
      getEntry (workerStep v (st, calls) a).1.index a.id =
          some ⟨a.id, d, ⟨e.meta.source, "image", true⟩⟩ ∧
        (workerStep v (st, calls) a).1.queue = removeArt st.queue a.id) ∧
    (∀ (v : List Nat → Option String) (st : RagState) (calls : List String)
      (a : Artifact) (e : RagEntry),
      getEntry st.index a.id = some e → e.meta.processed = true →
      workerStep v (st, calls) a =
        ({ st with queue := removeArt st.queue a.id }, calls)) ∧
    (∀ (v : List Nat → Option String) (st : RagState) (i : String) (e : RagEntry),
      getEntry st.index i = some e → e.meta.processed = true →
      getEntry (workerSweep v st).1.index i = some e ∧
        i ∉ (workerSweep v st).2) := by
  refine ⟨?_, ?_, ?_, ?_⟩
  · intro name doc e he
    rw [imageEntries] at he
    obtain ⟨p, _, hpe⟩ := List.mem_map.mp he
    rw [← hpe]
    exact ⟨rfl, rfl, rfl, rfl⟩
  · intro v st calls a e d h hp hv
    rw [workerStep_success h hp hv]
    constructor
    · show getEntry (updateEntry st.index a.id d ⟨e.meta.source, "image", true⟩)
        a.id = some ⟨a.id, d, ⟨e.meta.source, "image", true⟩⟩
      rw [getEntry_updateEntry, if_pos rfl, h]
      simp [getEntry_id h]
    · rfl
  · intro v st calls a e h hp
    exact workerStep_processed h hp
  · intro v st i e h hp
    have hres := foldl_keep_processed v st.queue st [] i e h hp
    exact ⟨hres.1, hres.2 (List.not_mem_nil i)⟩

/-- **C4, witness.** Concrete instances of all four conjuncts: the image
entry created for `exampleDoc`, one successful step, one step on an
already-processed entry, and a sweep over an already-processed entry. -/
theorem C4_image_entry_lifecycle_witness :
    ((imageEntry "m.docx" 0).doc = "[Image queued for analysis]" ∧
      (imageEntry "m.docx" 0).meta.processed = false ∧
      (imageEntry "m.docx" 0).meta.source = "m.docx" ∧
      (imageEntry "m.docx" 0).meta.type = "image") ∧
    (getEntry (workerStep (fun _ => some "red gear icon")
        (⟨[imageEntry "m.docx" 0], [⟨"m.docx_img_0", [7]⟩]⟩, [])
        ⟨"m.docx_img_0", [7]⟩).1.index "m.docx_img_0" =
      some ⟨"m.docx_img_0", "red gear icon", ⟨"m.docx", "image", true⟩⟩ ∧
      (workerStep (fun _ => some "red gear icon")
        (⟨[imageEntry "m.docx" 0], [⟨"m.docx_img_0", [7]⟩]⟩, [])
        ⟨"m.docx_img_0", [7]⟩).1.queue =
        removeArt [⟨"m.docx_img_0", [7]⟩] "m.docx_img_0") ∧
    (workerStep (fun _ => some "again")
        (⟨[⟨"m.docx_img_0", "done", ⟨"m.docx", "image", true⟩⟩],
          [⟨"m.docx_img_0", [7]⟩]⟩, []) ⟨"m.docx_img_0", [7]⟩ =
      (⟨[⟨"m.docx_img_0", "done", ⟨"m.docx", "image", true⟩⟩],
        removeArt [⟨"m.docx_img_0", [7]⟩] "m.docx_img_0"⟩, [])) ∧
    (getEntry (workerSweep (fun _ => some "again")
        ⟨[⟨"m.docx_img_0", "done", ⟨"m.docx", "image", true⟩⟩],
          [⟨"m.docx_img_0", [7]⟩]⟩).1.index "m.docx_img_0" =
      some ⟨"m.docx_img_0", "done", ⟨"m.docx", "image", true⟩⟩ ∧
      "m.docx_img_0" ∉ (workerSweep (fun _ => some "again")
        ⟨[⟨"m.docx_img_0", "done", ⟨"m.docx", "image", true⟩⟩],
          [⟨"m.docx_img_0", [7]⟩]⟩).2) := by
  refine ⟨C4_image_entry_lifecycle.1 "m.docx" exampleDoc (imageEntry "m.docx" 0)
      (by decide), ?_, ?_, ?_⟩
  · exact C4_image_entry_lifecycle.2.1 (fun _ => some "red gear icon")
      ⟨[imageEntry "m.docx" 0], [⟨"m.docx_img_0", [7]⟩]⟩ []
      ⟨"m.docx_img_0", [7]⟩ (imageEntry "m.docx" 0) "red gear icon"
      (by decide) (by decide) (by decide)
  · exact C4_image_entry_lifecycle.2.2.1 (fun _ => some "again")
      ⟨[⟨"m.docx_img_0", "done", ⟨"m.docx", "image", true⟩⟩],
        [⟨"m.docx_img_0", [7]⟩]⟩ [] ⟨"m.docx_img_0", [7]⟩
      ⟨"m.docx_img_0", "done", ⟨"m.docx", "image", true⟩⟩ (by decide) (by decide)
  · exact C4_image_entry_lifecycle.2.2.2 (fun _ => some "again")
      ⟨[⟨"m.docx_img_0", "done", ⟨"m.docx", "image", true⟩⟩],
        [⟨"m.docx_img_0", [7]⟩]⟩ "m.docx_img_0"
      ⟨"m.docx_img_0", "done", ⟨"m.docx", "image", true⟩⟩ (by decide) (by decide)

/-- **C5.** Failure isolation within one sweep: if every artifact carrying
item A's id fails the vision call while item B's call succeeds, then after
the sweep A's entry is unchanged and its artifact is still queued (to be
visited again next sweep), while B's entry has been updated to
`processed=true` with the model's output, and B was attempted — an earlier
failure never prevents later artifacts of the same sweep from being
processed. -/
theorem C5_failure_isolation (v : List Nat → Option String) (st : RagState)
    (l1 l2 : List Artifact) (A B : Artifact) (eA eB : RagEntry) (d : String)
    (hq : st.queue = l1 ++ B :: l2)
    (hl1 : ∀ a ∈ l1, a.id ≠ B.id)
    (hA : A ∈ st.queue)
    (heA : getEntry st.index A.id = some eA)
    (hpA : eA.meta.processed = false)
    (hvA : ∀ a ∈ st.queue, a.id = A.id → v a.bytes = none)
    (heB : getEntry st.index B.id = some eB)
    (hpB : eB.meta.processed = false)
    (hvB : v B.bytes = some d) :
    getEntry (workerSweep v st).1.index A.id = some eA ∧
      A ∈ (workerSweep v st).1.queue ∧
      getEntry (workerSweep v st).1.index B.id =
        some ⟨B.id, d, ⟨eB.meta.source, "image", true⟩⟩ ∧
      B.id ∈ (workerSweep v st).2 := by
  have hApart := foldl_keep_failing v st.queue st [] A.id eA heA hpA hvA
  refine ⟨hApart.1, hApart.2 A rfl hA, ?_, ?_⟩ <;>
  · have hsplit : workerSweep v st =
        l2.foldl (workerStep v) (workerStep v (l1.foldl (workerStep v) (st, [])) B) := by
      show st.queue.foldl (workerStep v) (st, []) = _
      rw [hq, List.foldl_append, List.foldl_cons]
    rcases hsc : l1.foldl (workerStep v) (st, []) with ⟨st1, c1⟩
    have hB1 : getEntry st1.index B.id = some eB := by
      have := foldl_entry_untouched v l1 (st, []) B.id hl1
      rw [hsc] at this
      rw [this]
      exact heB
    have hstep := @workerStep_success v st1 c1 B eB d hB1 hpB hvB
    have heBid : eB.id = B.id := getEntry_id heB
    have hnew : getEntry (updateEntry st1.index B.id d
        ⟨eB.meta.source, "image", true⟩) B.id =
        some ⟨B.id, d, ⟨eB.meta.source, "image", true⟩⟩ := by
      rw [getEntry_updateEntry, if_pos rfl, hB1]
      simp [heBid]
    have hkeep := foldl_keep_processed v l2
      ⟨updateEntry st1.index B.id d ⟨eB.meta.source, "image", true⟩,
        removeArt st1.queue B.id⟩ (c1 ++ [B.id]) B.id
      ⟨B.id, d, ⟨eB.meta.source, "image", true⟩⟩ hnew rfl
    have hmem : B.id ∈ (l2.foldl (workerStep v)
        (⟨updateEntry st1.index B.id d ⟨eB.meta.source, "image", true⟩,
          removeArt st1.queue B.id⟩, c1 ++ [B.id])).2 :=
      foldl_calls_mono v l2 _ B.id (by simp)
    rw [hsplit, hsc, hstep]
    first
    | exact hkeep.1
    | exact hmem

/-- **C5, witness.** A two-artifact sweep where the vision call fails on
`m.docx_img_0` and succeeds on `m.docx_img_1`: after the sweep the second
is processed with the model's output while the first is unchanged and
still queued. -/
theorem C5_failure_isolation_witness :
    getEntry (workerSweep
        (fun b => if b == [2] then some "red gear icon, top-right" else none)
        ⟨[imageEntry "m.docx" 0, imageEntry "m.docx" 1],
          [⟨"m.docx_img_0", [1]⟩, ⟨"m.docx_img_1", [2]⟩]⟩).1.index
      "m.docx_img_0" = some (imageEntry "m.docx" 0) ∧
    (⟨"m.docx_img_0", [1]⟩ : Artifact) ∈ (workerSweep
        (fun b => if b == [2] then some "red gear icon, top-right" else none)
        ⟨[imageEntry "m.docx" 0, imageEntry "m.docx" 1],
          [⟨"m.docx_img_0", [1]⟩, ⟨"m.docx_img_1", [2]⟩]⟩).1.queue ∧
    getEntry (workerSweep
        (fun b => if b == [2] then some "red gear icon, top-right" else none)
        ⟨[imageEntry "m.docx" 0, imageEntry "m.docx" 1],
          [⟨"m.docx_img_0", [1]⟩, ⟨"m.docx_img_1", [2]⟩]⟩).1.index
      "m.docx_img_1" =
      some ⟨"m.docx_img_1", "red gear icon, top-right", ⟨"m.docx", "image", true⟩⟩ ∧
    "m.docx_img_1" ∈ (workerSweep
        (fun b => if b == [2] then some "red gear icon, top-right" else none)
        ⟨[imageEntry "m.docx" 0, imageEntry "m.docx" 1],
          [⟨"m.docx_img_0", [1]⟩, ⟨"m.docx_img_1", [2]⟩]⟩).2 := by
  have hres := C5_failure_isolation
    (fun b => if b == [2] then some "red gear icon, top-right" else none)
    ⟨[imageEntry "m.docx" 0, imageEntry "m.docx" 1],
      [⟨"m.docx_img_0", [1]⟩, ⟨"m.docx_img_1", [2]⟩]⟩
    [⟨"m.docx_img_0", [1]⟩] [] ⟨"m.docx_img_0", [1]⟩ ⟨"m.docx_img_1", [2]⟩
    (imageEntry "m.docx" 0) (imageEntry "m.docx" 1) "red gear icon, top-right"
    (by decide) (by decide) (by decide) (by decide) (by decide) (by decide)
    (by decide) (by decide) (by decide)
  exact hres

/-- **C8.** When the similarity query raises for a non-empty question, the
`/ask` handler does NOT return the 500 answering-error branch: the handler
has already returned the 200 event-stream response (the `try` block only
constructs the generator, whose body runs during response iteration), and
the failure merely aborts the stream.  The `except`/500 branch is
unreachable for upstream failures. -/
theorem C8_ask_upstream_failure_aborts_stream :
    ask_question "how do I post an announcement"
        (Except.error "boom") (fun _ => ([], none)) =
      AskResp.eventStream [SseEvent.abort "boom"] := by
  decide

/-- **C9.** `allowed_file` accepts a filename exactly when it contains a
dot and the substring after the *last* dot, lowercased, is `docx`; and a
present, rejected file is answered with a 400 response while the state is
untouched. -/
theorem C9_upload_extension_check (filename : String) :
    (allowed_file filename =
      (filename.toList.contains '.' &&
        pyLower ((filename.toList.reverse.takeWhile (fun c => c ≠ '.')).reverse)
          == "docx".toList)) ∧
    (allowed_file filename = false →
      ∀ (parseOk : Bool) (doc : Docx) (addFails : Nat → Bool) (st : RagState),
        (upload_file true filename parseOk doc addFails st).1.is400 = true ∧
        (upload_file true filename parseOk doc addFails st).2 = st) := by
  constructor
  · by_cases h : ('.') ∈ filename.data
    · simp [allowed_file, pyRsplitOnce, String.toList, h]
    · simp [allowed_file, pyRsplitOnce, String.toList, h]
  · intro hf parseOk doc addFails st
    by_cases he : filename = ""
    · simp [upload_file, he, UploadResp.is400]
    · simp [upload_file, he, hf, UploadResp.is400]

/-- **C9, witness.** `Manual.DOCX` is accepted; `docx` (dotless) and
`a.docx.exe` (different final extension) are rejected with a 400 and no
state change. -/
theorem C9_upload_extension_check_witness :
    allowed_file "Manual.DOCX" = true ∧
    allowed_file "docx" = false ∧
    allowed_file "a.docx.exe" = false ∧
    allowed_file "Manual.DOCX" =
      ("Manual.DOCX".toList.contains '.' &&
        pyLower (("Manual.DOCX".toList.reverse.takeWhile (fun c => c ≠ '.')).reverse)
          == "docx".toList) ∧
    (upload_file true "docx" true exampleDoc (fun _ => false) emptyState).1.is400
      = true ∧
    (upload_file true "docx" true exampleDoc (fun _ => false) emptyState).2
      = emptyState ∧
    (upload_file true "a.docx.exe" true exampleDoc (fun _ => false)
        emptyState).1.is400 = true ∧
    (upload_file true "a.docx.exe" true exampleDoc (fun _ => false)
        emptyState).2 = emptyState := by
  refine ⟨by decide, by decide, by decide,
    (C9_upload_extension_check "Manual.DOCX").1, ?_, ?_, ?_, ?_⟩
  · exact ((C9_upload_extension_check "docx").2 (by decide) true exampleDoc
      (fun _ => false) emptyState).1
  · exact ((C9_upload_extension_check "docx").2 (by decide) true exampleDoc
      (fun _ => false) emptyState).2
  · exact ((C9_upload_extension_check "a.docx.exe").2 (by decide) true exampleDoc
      (fun _ => false) emptyState).1
  · exact ((C9_upload_extension_check "a.docx.exe").2 (by decide) true exampleDoc
      (fun _ => false) emptyState).2

/-- **C10.** A document whose paragraphs are all empty or whitespace-only
extracts to the empty string, yields an empty chunk list, and the text
`collection.add` of `process_docx` is invoked with empty id/document/
metadata lists (so it adds nothing to the index) before any embedded image
is handled. -/
theorem C10_whitespace_doc_empty_chunks (paras : List String)
    (rels : List DocxRel) (name : String)
    (h : ∀ p ∈ paras, pyStrip p.toList = []) :
    textOf ⟨paras, rels⟩ = "" ∧
    textChunks ⟨paras, rels⟩ = [] ∧
    textEntries name ⟨paras, rels⟩ = [] ∧
    (∀ st : RagState, st.index ++ textEntries name ⟨paras, rels⟩ = st.index) := by
  have hf : paras.filter (fun p => pyStrip p.toList ≠ []) = [] := by
    rw [List.filter_eq_nil_iff]
    intro p hp
    simp only [ne_eq, decide_not, Bool.not_eq_true', decide_eq_false_iff_not,
      Decidable.not_not]
    exact h p hp
  have ht : textOf ⟨paras, rels⟩ = "" := by
    rw [textOf]
    simp only [hf]
    rfl
  have hc : textChunks ⟨paras, rels⟩ = [] := by
    rw [textChunks, ht]
    rfl
  have he : textEntries name ⟨paras, rels⟩ = [] := by
    rw [textEntries, hc]
    rfl
  exact ⟨ht, hc, he, fun st => by rw [he, List.append_nil]⟩

/-- **C10, witness.** A two-paragraph all-whitespace document with one
embedded image produces no text entries at all. -/
theorem C10_whitespace_doc_empty_chunks_witness :
    textOf ⟨["", "   "], [⟨"media/image1.png", [1]⟩]⟩ = "" ∧
    textChunks ⟨["", "   "], [⟨"media/image1.png", [1]⟩]⟩ = [] ∧
    textEntries "m.docx" ⟨["", "   "], [⟨"media/image1.png", [1]⟩]⟩ = [] ∧
    (∀ st : RagState,
      st.index ++ textEntries "m.docx" ⟨["", "   "], [⟨"media/image1.png", [1]⟩]⟩
        = st.index) := by
  exact C10_whitespace_doc_empty_chunks ["", "   "] [⟨"media/image1.png", [1]⟩]
    "m.docx" (by decide)

/-! ## Chunking lemmas (for the text-splitting claim) -/

theorem pyRangeAux_eq (fuel : Nat) : ∀ (a b : Nat), b - a ≤ fuel →
    pyRangeAux fuel a b 1800 =
      (List.range ((b - a + 1799) / 1800)).map (fun k => a + 1800 * k) := by
  induction fuel with
  | zero =>
    intro a b hf
    have hba : b - a = 0 := Nat.le_zero.mp hf
    rw [show (b - a + 1799) / 1800 = 0 by omega]
    rfl
  | succ n ih =>
    intro a b hf
    by_cases hab : a < b
    · show (if a < b ∧ 0 < 1800 then a :: pyRangeAux n (a + 1800) b 1800 else []) = _
      rw [if_pos ⟨hab, by norm_num⟩]
      rw [ih (a + 1800) b (by omega)]
      rw [show (b - a + 1799) / 1800 = (b - (a + 1800) + 1799) / 1800 + 1 by omega]
      rw [List.range_succ_eq_map, List.map_cons, List.map_map]
      refine congrArg₂ _ (by norm_num) ?_
      refine List.map_congr_left (fun k _ => ?_)
      simp only [Function.comp_apply, Nat.mul_succ]
      omega
    · show (if a < b ∧ 0 < 1800 then a :: pyRangeAux n (a + 1800) b 1800 else []) = _
      rw [if_neg (fun hc => hab hc.1)]
      rw [show (b - a + 1799) / 1800 = 0 by omega]
      rfl

theorem chunkList_eq (t : List Char) :
    chunkList t = (List.range ((t.length + 1799) / 1800)).map
      (fun k => (t.drop (1800 * k)).take 2000) := by
  rw [chunkList, pyRange, pyRangeAux_eq (t.length - 0) 0 t.length (by omega)]
  rw [List.map_map, Nat.sub_zero]
  refine List.map_congr_left (fun k _ => ?_)
  norm_num

theorem chunkList_length (t : List Char) :
    (chunkList t).length = (t.length + 1799) / 1800 := by
  rw [chunkList_eq, List.length_map, List.length_range]

theorem chunkList_getElem? (t : List Char) (i : Nat)
    (h : i < (chunkList t).length) :
    (chunkList t)[i]? = some ((t.drop (1800 * i)).take 2000) := by
  rw [chunkList_length] at h
  rw [chunkList_eq, List.getElem?_map, List.getElem?_range h]
  rfl

theorem chunkList_cons (t : List Char) (h : t ≠ []) :
    chunkList t = (t.take 2000) :: chunkList (t.drop 1800) := by
  have hl : 0 < t.length := List.length_pos.mpr h
  rw [chunkList_eq, chunkList_eq]
  rw [show ((t.drop 1800).length + 1799) / 1800 = (t.length - 1800 + 1799) / 1800 by
    rw [List.length_drop]]
  rw [show (t.length + 1799) / 1800 = (t.length - 1800 + 1799) / 1800 + 1 by omega]
  rw [List.range_succ_eq_map, List.map_cons, List.map_map]
  refine congrArg₂ _ (by norm_num) ?_
  refine List.map_congr_left (fun k _ => ?_)
  simp only [Function.comp_apply, Nat.mul_succ]
  rw [List.drop_drop]
  rw [show 1800 + 1800 * k = 1800 * k + 1800 by omega]

theorem chunkList_reconstruct (t : List Char) :
    t = ((chunkList t).headD []) ++
      (((chunkList t).tail).map (fun c => c.drop 200)).flatten := by
  generalize hn : t.length = n
  induction n using Nat.strong_induction_on generalizing t with
  | _ n ih =>
    by_cases hnil : t = []
    · subst hnil; rfl
    · rw [chunkList_cons t hnil]
      rw [List.headD_cons, List.tail_cons]
      by_cases hle : t.length ≤ 1800
      · rw [List.drop_eq_nil_of_le hle]
        rw [show chunkList [] = [] from rfl]
        rw [List.take_of_length_le (by omega)]
        simp
      · push_neg at hle
        have hlt : (t.drop 1800).length < n := by
          rw [List.length_drop]; omega
        have ht₂ := ih (t.drop 1800).length (hn ▸ hlt) (t.drop 1800) rfl
        have hne : t.drop 1800 ≠ [] := by
          apply List.length_pos.mp
          rw [List.length_drop]; omega
        rw [chunkList_cons _ hne, List.headD_cons, List.tail_cons] at ht₂
        rw [chunkList_cons _ hne, List.map_cons, List.flatten_cons]
        have hJ : (((chunkList ((t.drop 1800).drop 1800)).map
            (fun c => c.drop 200)).flatten) = (t.drop 1800).drop 2000 := by
          by_cases h2 : (t.drop 1800).length ≤ 2000
          · rw [List.take_of_length_le h2] at ht₂
            have hlenJ := congrArg List.length ht₂
            rw [List.length_append] at hlenJ
            have hzero : (((chunkList ((t.drop 1800).drop 1800)).map
                (fun c => c.drop 200)).flatten).length = 0 := by omega
            rw [List.eq_nil_of_length_eq_zero hzero]
            rw [List.drop_eq_nil_of_le h2]
          · push_neg at h2
            have hlen2000 : ((t.drop 1800).take 2000).length = 2000 := by
              rw [List.length_take]; omega
            calc (((chunkList ((t.drop 1800).drop 1800)).map
                  (fun c => c.drop 200)).flatten)
                = (((t.drop 1800).take 2000) ++
                    ((chunkList ((t.drop 1800).drop 1800)).map
                      (fun c => c.drop 200)).flatten).drop 2000 := by
                  conv_lhs => rw [← List.drop_left ((t.drop 1800).take 2000)
                    (((chunkList ((t.drop 1800).drop 1800)).map
                      (fun c => c.drop 200)).flatten)]
                  rw [hlen2000]
              _ = (t.drop 1800).drop 2000 := by rw [← ht₂]
        rw [hJ]
        rw [List.drop_take, List.drop_drop, List.drop_drop]
        norm_num
        rw [show List.drop 3800 t = List.drop 1800 (List.drop 2000 t) by
          rw [List.drop_drop]]
        rw [List.take_append_drop 1800 (t.drop 2000), List.take_append_drop 2000 t]

/-- A text of 1801 identical characters: long enough for two chunks, with
a second chunk of a single character. -/
def t1801 : List Char := List.replicate 1801 'a'

/-- **C7 (counterexample).** On a 1801-character text the chunking yields
two chunks, but the second chunk is the single character at position 1800:
consecutive chunks share only a 1-character overlap, not a 200-character
one — the later chunk cannot even contribute 200 characters. -/
theorem C7_counterexample :
    (chunkList t1801).length = 2 ∧
    (chunkList t1801)[1]? = some ['a'] ∧
    ¬ (∀ i, i + 1 < (chunkList t1801).length →
        ∃ c₂, (chunkList t1801)[i + 1]? = some c₂ ∧ (c₂.take 200).length = 200) := by
  have hT : t1801.length = 1801 := by
    rw [t1801, List.length_replicate]
  have hlen : (chunkList t1801).length = 2 := by
    rw [chunkList_length, hT]
  have hget : (chunkList t1801)[1]? = some ['a'] := by
    rw [chunkList_getElem? t1801 1 (by rw [hlen]; norm_num)]
    rw [show t1801.drop 1800 = ['a'] by
      rw [t1801, List.drop_replicate]
      norm_num]
    rfl
  refine ⟨hlen, hget, fun hall => ?_⟩
  obtain ⟨c₂, hc, h200⟩ := hall 0 (by rw [hlen]; norm_num)
  rw [hget] at hc
  cases hc
  simp at h200

/-- **C7 (amended).** For non-empty extracted text of length `L`: the
number of chunks is `⌈L/1800⌉`; chunk `i` is the substring starting at
character `1800*i` of length at most 2000; consecutive chunks overlap in
the region from position 1800 of the earlier chunk, which is exactly 200
characters whenever `1800*(i+1)+200 ≤ L` (the later chunk can be shorter,
shrinking the shared overlap); the concatenation with overlaps removed
reconstructs the text; and chunk `i` receives id `<file_name>_t_<i>` with
metadata `source=<file_name>`, `type=text`. -/
theorem C7_chunking (t : List Char) (h : t ≠ []) (name : String) (doc : Docx) :
    (chunkList t).length = (t.length + 1799) / 1800 ∧
    (∀ i, i < (chunkList t).length →
      (chunkList t)[i]? = some ((t.drop (1800 * i)).take 2000)) ∧
    (∀ i, i + 1 < (chunkList t).length →
      ((t.drop (1800 * i)).take 2000).drop 1800 =
        ((t.drop (1800 * (i + 1))).take 2000).take 200 ∧
      (1800 * (i + 1) + 200 ≤ t.length →
        (((t.drop (1800 * (i + 1))).take 2000).take 200).length = 200)) ∧
    (t = ((chunkList t).headD []) ++
      (((chunkList t).tail).map (fun c => c.drop 200)).flatten) ∧
    (textEntries name doc).map (fun e => e.id) =
      (List.range (textChunks doc).length).map (fun i => textId name i) ∧
    (∀ e ∈ textEntries name doc, e.meta = ⟨name, "text", false⟩) := by
  refine ⟨chunkList_length t, fun i hi => chunkList_getElem? t i hi, ?_,
    chunkList_reconstruct t, ?_, ?_⟩
  · intro i hi
    constructor
    · rw [List.drop_take, List.drop_drop, List.take_take]
      norm_num
      rw [show 1800 * i + 1800 = 1800 * (i + 1) by ring]
    · intro hle
      rw [List.take_take, List.length_take, List.length_drop]
      omega
  · rw [textEntries, List.map_map]
    rw [show ((fun e : RagEntry => e.id) ∘
        (fun p : Nat × String =>
          (⟨textId name p.1, p.2, ⟨name, "text", false⟩⟩ : RagEntry)))
      = (textId name) ∘ Prod.fst from rfl]
    rw [← List.map_map, List.enum_map_fst]
  · intro e he
    rw [textEntries] at he
    obtain ⟨p, _, hpe⟩ := List.mem_map.mp he
    rw [← hpe]

/-- **C7 (amended), witness.** The amended chunking theorem instantiated
at the concrete 1801-character text (two chunks) and `exampleDoc`. -/
theorem C7_chunking_witness :
    (chunkList t1801).length = (t1801.length + 1799) / 1800 ∧
    (chunkList t1801)[0]? = some ((t1801.drop (1800 * 0)).take 2000) ∧
    ((t1801.drop (1800 * 0)).take 2000).drop 1800 =
      ((t1801.drop (1800 * (0 + 1))).take 2000).take 200 ∧
    (t1801 = ((chunkList t1801).headD []) ++
      (((chunkList t1801).tail).map (fun c => c.drop 200)).flatten) ∧
    (textEntries "m.docx" exampleDoc).map (fun e => e.id) =
      (List.range (textChunks exampleDoc).length).map (fun i => textId "m.docx" i) := by
  have hT : t1801.length = 1801 := by
    rw [t1801, List.length_replicate]
  have hres := C7_chunking t1801
    (by apply List.length_pos.mp; rw [hT]; norm_num) "m.docx" exampleDoc
  have hpos0 : 0 < (chunkList t1801).length := by
    rw [hres.1, hT]
    norm_num
  have hpos1 : 0 + 1 < (chunkList t1801).length := by
    rw [hres.1, hT]
    norm_num
  exact ⟨hres.1, hres.2.1 0 hpos0, (hres.2.2.1 0 hpos1).1, hres.2.2.2.1,
    hres.2.2.2.2.1⟩
